import Mathlib

/-
Verification of the host-port-pair library (src/lib.rs) against its
specification.  Strings are modelled as lists of characters; the Rust
standard-library routines the crate calls (`u16::from_str`,
`IpAddr::from_str` from core::net::parser) are embedded alongside the
crate's own functions.
-/

set_option maxHeartbeats 1000000

namespace HostPortPairLib

abbrev Str := List Char

instance {e a : Type} [DecidableEq e] [DecidableEq a] : DecidableEq (Except e a) :=
  fun x y =>
  match x, y with
  | .error e1, .error e2 =>
    match decEq e1 e2 with
    | isTrue h => isTrue (h ▸ rfl)
    | isFalse h => isFalse (fun he => h (Except.error.inj he))
  | .error _, .ok _ => isFalse (fun he => Except.noConfusion he)
  | .ok _, .error _ => isFalse (fun he => Except.noConfusion he)
  | .ok v1, .ok v2 =>
    match decEq v1 v2 with
    | isTrue h => isTrue (h ▸ rfl)
    | isFalse h => isFalse (fun he => h (Except.ok.inj he))

/-! ## Rust `u16::from_str` (core::num::from_str_radix, radix 10, unsigned) -/

/-- The observable kinds of `ParseIntError` reachable when parsing a `u16`. -/
inductive IntErrorKind where
  | empty
  | invalidDigit
  | posOverflow
deriving DecidableEq

/-- `char::to_digit(radix)`: decimal digits, then lowercase and uppercase
letters, accepted only below the radix. -/
def toDigit (radix : Nat) (c : Char) : Option Nat :=
  let v :=
    if '0' ≤ c ∧ c ≤ '9' then some (c.toNat - 48)
    else if 'a' ≤ c ∧ c ≤ 'z' then some (c.toNat - 97 + 10)
    else if 'A' ≤ c ∧ c ≤ 'Z' then some (c.toNat - 65 + 10)
    else none
  match v with
  | some d => if d < radix then some d else none
  | none => none

/-- The digit-accumulation loop of `from_str_radix` for `u16`: each step is a
checked multiply-and-add against the `u16` maximum, failing with
`PosOverflow`. -/
def parseU16Digits : Str → Nat → Except IntErrorKind Nat
  | [], acc => .ok acc
  | c :: cs, acc =>
    match toDigit 10 c with
    | none => .error .invalidDigit
    | some x =>
      if acc * 10 + x > 65535 then .error .posOverflow
      else parseU16Digits cs (acc * 10 + x)

/-- `u16::from_str`: empty input is `Empty`; a leading `+` with nothing after
it is `InvalidDigit`; a leading `+` is stripped; `-` is not stripped for an
unsigned type and fails in the digit loop. -/
def parseU16 (s : Str) : Except IntErrorKind Nat :=
  match s with
  | [] => .error .empty
  | c :: ds =>
    if c = '+' then
      if ds = [] then .error .invalidDigit else parseU16Digits ds 0
    else parseU16Digits (c :: ds) 0

/-! ## Rust `IpAddr::from_str` (core::net::parser) -/

/-- The digit loop of `Parser::read_number`: reads digits greedily, with a
checked bound `maxv` and a running digit count bounded by `maxDigits`.
Returns the value, the number of digits consumed and the rest. -/
def readNumLoop (radix maxv maxDigits : Nat) : Str → Nat → Nat → Option (Nat × Nat × Str)
  | [], result, count => some (result, count, [])
  | c :: cs, result, count =>
    match toDigit radix c with
    | none => some (result, count, c :: cs)
    | some d =>
      if result * radix + d > maxv then none
      else if count + 1 > maxDigits then none
      else readNumLoop radix maxv maxDigits cs (result * radix + d) (count + 1)

/-- `Parser::read_number`: at least one digit, and unless `allowZeroPad` a
multi-digit number may not start with `0`. -/
def readNumber (radix maxv maxDigits : Nat) (allowZeroPad : Bool) (s : Str) :
    Option (Nat × Str) :=
  match readNumLoop radix maxv maxDigits s 0 0 with
  | none => none
  | some (result, count, rest) =>
    if count = 0 then none
    else if allowZeroPad = false ∧ s.head? = some '0' ∧ count > 1 then none
    else some (result, rest)

structure Ipv4Addr where
  o0 : Nat
  o1 : Nat
  o2 : Nat
  o3 : Nat
deriving DecidableEq

/-- `Parser::read_ipv4_addr`: four octets (≤ 255, at most three digits, no
leading zero) separated by `.`. -/
def readIpv4 (s : Str) : Option (Ipv4Addr × Str) :=
  match readNumber 10 255 3 false s with
  | none => none
  | some (a, s1) =>
    match s1 with
    | '.' :: s2 =>
      match readNumber 10 255 3 false s2 with
      | none => none
      | some (b, s3) =>
        match s3 with
        | '.' :: s4 =>
          match readNumber 10 255 3 false s4 with
          | none => none
          | some (c, s5) =>
            match s5 with
            | '.' :: s6 =>
              match readNumber 10 255 3 false s6 with
              | none => none
              | some (d, s7) => some (⟨a, b, c, d⟩, s7)
            | _ => none
        | _ => none
    | _ => none

/-- `Parser::read_separator(':', i, read_ipv4_addr)`: a `:` is required
before every item except the first. -/
def readSepIpv4 (i : Nat) (s : Str) : Option (Ipv4Addr × Str) :=
  if i = 0 then readIpv4 s
  else
    match s with
    | ':' :: rest => readIpv4 rest
    | _ => none

/-- `Parser::read_separator(':', i, read_number(16, 4, zero pad allowed))`. -/
def readSepGroup (i : Nat) (s : Str) : Option (Nat × Str) :=
  if i = 0 then readNumber 16 65535 4 true s
  else
    match s with
    | ':' :: rest => readNumber 16 65535 4 true rest
    | _ => none

/-- The `read_groups` helper of `read_ipv6_addr`: reads up to `remaining`
colon-separated 16-bit groups starting at absolute index `i`; when at least
two slots remain, a trailing embedded IPv4 address is tried first and fills
two groups.  Returns the groups read, the embedded-IPv4 flag and the rest. -/
def readGroups : Nat → Nat → Str → List Nat × Bool × Str
  | 0, _, s => ([], false, s)
  | remaining + 1, i, s =>
    match (if remaining ≥ 1 then readSepIpv4 i s else none) with
    | some (v4, rest) =>
      ([v4.o0 * 256 + v4.o1, v4.o2 * 256 + v4.o3], true, rest)
    | none =>
      match readSepGroup i s with
      | none => ([], false, s)
      | some (g, rest) =>
        match readGroups remaining (i + 1) rest with
        | (gs, flag, rest2) => (g :: gs, flag, rest2)

/-- `Parser::read_ipv6_addr`: a head of up to eight groups; if fewer than
eight, the head may not contain an embedded IPv4 part, a `::` follows, and a
tail of at most `8 - head - 1` groups is read; the gap is zero-filled. -/
def readIpv6 (s : Str) : Option (List Nat × Str) :=
  match readGroups 8 0 s with
  | (head, headV4, s1) =>
    if head.length = 8 then some (head, s1)
    else if headV4 then none
    else
      match s1 with
      | ':' :: ':' :: s2 =>
        match readGroups (8 - (head.length + 1)) 0 s2 with
        | (tl, _, s3) =>
          some (head ++ List.replicate (8 - head.length - tl.length) 0 ++ tl, s3)
      | _ => none

inductive IpAddr where
  | v4 : Ipv4Addr → IpAddr
  | v6 : List Nat → IpAddr
deriving DecidableEq

/-- `Parser::read_ip_addr`: IPv4 first, otherwise IPv6. -/
def readIpAddr (s : Str) : Option (IpAddr × Str) :=
  match readIpv4 s with
  | some (a, rest) => some (.v4 a, rest)
  | none =>
    match readIpv6 s with
    | some (g, rest) => some (.v6 g, rest)
    | none => none

/-- `IpAddr::from_str` (`parse_with`): the reader must consume the whole
input. -/
def parseIpAddr (s : Str) : Option IpAddr :=
  match readIpAddr s with
  | some (ip, []) => some ip
  | _ => none

/-! ## The crate's own types and functions (src/lib.rs) -/

inductive Host where
  | ipAddr : IpAddr → Host
  | dnsName : Str → Host
deriving DecidableEq

structure HostPortPair where
  host : Host
  port : Nat
deriving DecidableEq

inductive HostPortPairError where
  | noPort : HostPortPairError
  | parsePort : IntErrorKind → HostPortPairError
deriving DecidableEq

/-- `From<&str> for Host`: try the string as an IP literal, otherwise keep
it verbatim as a DNS name. -/
def Host.fromStr (s : Str) : Host :=
  match parseIpAddr s with
  | some ip => .ipAddr ip
  | none => .dnsName s

def Host.is_ip_address : Host → Bool
  | .ipAddr _ => true
  | .dnsName _ => false

def Host.is_dns_name : Host → Bool
  | .ipAddr _ => false
  | .dnsName _ => true

/-- `str::rsplit_once(':')`: split at the last colon, if any. -/
def rsplitOnceColon : Str → Option (Str × Str)
  | [] => none
  | c :: cs =>
    match rsplitOnceColon cs with
    | some (h, t) => some (c :: h, t)
    | none => if c = ':' then some ([], cs) else none

/-- `TryFrom<&str> for HostPortPair`. -/
def tryFromStr (s : Str) : Except HostPortPairError HostPortPair :=
  match rsplitOnceColon s with
  | none => .error .noPort
  | some (host, portStr) =>
    match parseU16 portStr with
    | .error e => .error (.parsePort e)
    | .ok port => .ok ⟨Host.fromStr host, port⟩

/-- `TryFrom<String> for HostPortPair`: the owned string is truncated to the
length of the part before the last colon and converted in place. -/
def tryFromString (s : Str) : Except HostPortPairError HostPortPair :=
  match rsplitOnceColon s with
  | none => .error .noPort
  | some (host, portStr) =>
    match parseU16 portStr with
    | .error e => .error (.parsePort e)
    | .ok port => .ok ⟨Host.fromStr (s.take host.length), port⟩

/-- `TryFrom<&String> for HostPortPair`. -/
def tryFromRefString (s : Str) : Except HostPortPairError HostPortPair :=
  match rsplitOnceColon s with
  | none => .error .noPort
  | some (host, portStr) =>
    match parseU16 portStr with
    | .error e => .error (.parsePort e)
    | .ok port => .ok ⟨Host.fromStr host, port⟩

/-- `FromStr for HostPortPair`: delegates to `TryFrom<&str>`. -/
def fromStr (s : Str) : Except HostPortPairError HostPortPair :=
  tryFromStr s

/-! ## Display -/

def digitChar (d : Nat) : Char := Char.ofNat (48 + d)

/-- Decimal rendering, most significant digit first.  The first argument is
fuel; every call site passes at least the number itself, which bounds the
number of digit steps. -/
def natToDecAux : Nat → Nat → Str → Str
  | 0, _, acc => acc
  | fuel + 1, n, acc =>
    if n = 0 then acc else natToDecAux fuel (n / 10) (digitChar (n % 10) :: acc)

def natToDec (n : Nat) : Str :=
  if n = 0 then ['0'] else natToDecAux n n []

/-- Lowercase hexadecimal digit, as `{:x}` renders it. -/
def hexDigitChar (d : Nat) : Char :=
  if d < 10 then Char.ofNat (48 + d) else Char.ofNat (87 + d)

def natToHexAux : Nat → Nat → Str → Str
  | 0, _, acc => acc
  | fuel + 1, n, acc =>
    if n = 0 then acc else natToHexAux fuel (n / 16) (hexDigitChar (n % 16) :: acc)

def natToHex (n : Nat) : Str :=
  if n = 0 then ['0'] else natToHexAux n n []

/-- `Display for Ipv4Addr`: dotted decimal. -/
def ipv4ToString (a : Ipv4Addr) : Str :=
  natToDec a.o0 ++ '.' :: (natToDec a.o1 ++ '.' :: (natToDec a.o2 ++ '.' :: natToDec a.o3))

/-- `fmt_subslice`: hexadecimal groups joined by `:`. -/
def fmtSubslice : List Nat → Str
  | [] => []
  | [g] => natToHex g
  | g :: g2 :: rest => natToHex g ++ ':' :: fmtSubslice (g2 :: rest)

/-- The longest-run-of-zero-groups scan of `Display for Ipv6Addr`
(earliest run wins ties). -/
def zeroRunAux : List Nat → Nat → Nat → Nat → Nat → Nat → Nat × Nat
  | [], _, _, _, bestStart, bestLen => (bestStart, bestLen)
  | g :: gs, i, curStart, curLen, bestStart, bestLen =>
    if g = 0 then
      let cs := if curLen = 0 then i else curStart
      let cl := curLen + 1
      if cl > bestLen then zeroRunAux gs (i + 1) cs cl cs cl
      else zeroRunAux gs (i + 1) cs cl bestStart bestLen
    else zeroRunAux gs (i + 1) 0 0 bestStart bestLen

def zeroRun (gs : List Nat) : Nat × Nat :=
  zeroRunAux gs 0 0 0 0 0

/-- `Display for Ipv6Addr`: `::` for unspecified, `::1` for loopback,
`::ffff:a.b.c.d` for IPv4-mapped, otherwise the longest zero run (length
at least two) is compressed to `::`. -/
def ipv6ToString (gs : List Nat) : Str :=
  if gs = [0, 0, 0, 0, 0, 0, 0, 0] then [':', ':']
  else if gs = [0, 0, 0, 0, 0, 0, 0, 1] then [':', ':', '1']
  else
    match gs with
    | [0, 0, 0, 0, 0, 65535, hi, lo] =>
      [':', ':', 'f', 'f', 'f', 'f', ':'] ++
        ipv4ToString ⟨hi / 256, hi % 256, lo / 256, lo % 256⟩
    | _ =>
      match zeroRun gs with
      | (zs, zl) =>
        if zl > 1 then
          fmtSubslice (gs.take zs) ++ ':' :: ':' :: fmtSubslice (gs.drop (zs + zl))
        else fmtSubslice gs

/-- `Display for Host`: the address in its standard textual form, or the
name verbatim. -/
def hostToString : Host → Str
  | .ipAddr (.v4 a) => ipv4ToString a
  | .ipAddr (.v6 g) => ipv6ToString g
  | .dnsName s => s

/-- `Display for HostPortPair`: `write!(f, "{}:{}", host, port)`. -/
def pairToString (p : HostPortPair) : Str :=
  hostToString p.host ++ ':' :: natToDec p.port

/-! ## Predicates used to state the specification's claims -/

/-- The domain character set named by the specification:
`[0-9 a-z A-Z - . _]`. -/
def allowedDomainChar (c : Char) : Bool :=
  decide (('0' ≤ c ∧ c ≤ '9') ∨ ('a' ≤ c ∧ c ≤ 'z') ∨ ('A' ≤ c ∧ c ≤ 'Z') ∨
    c = '-' ∨ c = '.' ∨ c = '_')

def isDecDigit (c : Char) : Bool :=
  decide ('0' ≤ c ∧ c ≤ '9')

/-- The numeric value of a decimal digit string, accumulating from `a`. -/
def digitsValFrom (a : Nat) (ds : Str) : Nat :=
  ds.foldl (fun x c => x * 10 + (c.toNat - 48)) a

def digitsVal (ds : Str) : Nat :=
  digitsValFrom 0 ds

/-! ## Lemmas: the last-colon split -/

theorem rsplitOnceColon_eq_none_iff (s : Str) : rsplitOnceColon s = none ↔ ':' ∉ s := by
  induction s with
  | nil => simp [rsplitOnceColon]
  | cons c cs ih =>
    unfold rsplitOnceColon
    cases hr : rsplitOnceColon cs with
    | some p =>
      simp only [List.mem_cons]
      constructor
      · intro hh; cases hh
      · intro hmem
        exfalso
        apply hmem
        right
        by_contra hno
        rw [(ih).mpr hno] at hr
        cases hr
    | none =>
      by_cases hc : c = ':'
      · subst hc
        simp
      · rw [if_neg hc]
        simp only [List.mem_cons]
        constructor
        · intro _ hm
          rcases hm with hm | hm
          · exact hc hm.symm
          · exact (ih.mp hr) hm
        · intro _
          trivial

theorem rsplitOnceColon_sound :
    ∀ (s h t : Str), rsplitOnceColon s = some (h, t) → s = h ++ ':' :: t ∧ ':' ∉ t := by
  intro s
  induction s with
  | nil => intro h t hs; simp [rsplitOnceColon] at hs
  | cons c cs ih =>
    intro h t hs
    unfold rsplitOnceColon at hs
    cases hr : rsplitOnceColon cs with
    | some p =>
      obtain ⟨h1, t1⟩ := p
      rw [hr] at hs
      have hs2 : c :: h1 = h ∧ t1 = t := by
        simpa using hs
      obtain ⟨hh, ht⟩ := hs2
      have hcs := ih h1 t1 hr
      subst hh
      subst ht
      exact ⟨by rw [hcs.1]; rfl, hcs.2⟩
    | none =>
      rw [hr] at hs
      by_cases hc : c = ':'
      · rw [if_pos hc] at hs
        have hs2 : ([] : Str) = h ∧ cs = t := by
          simpa using hs
        obtain ⟨hh, ht⟩ := hs2
        subst hh
        subst ht
        subst hc
        exact ⟨rfl, (rsplitOnceColon_eq_none_iff cs).mp hr⟩
      · rw [if_neg hc] at hs
        cases hs

theorem rsplitOnceColon_append (h t : Str) (ht : ':' ∉ t) :
    rsplitOnceColon (h ++ ':' :: t) = some (h, t) := by
  induction h with
  | nil =>
    show rsplitOnceColon (':' :: t) = _
    unfold rsplitOnceColon
    rw [(rsplitOnceColon_eq_none_iff t).mpr ht]
    rfl
  | cons c cs ih =>
    show rsplitOnceColon (c :: (cs ++ ':' :: t)) = _
    unfold rsplitOnceColon
    rw [ih]

/-! ## Lemmas: digits and `u16` parsing -/

theorem isDecDigit_toNat {c : Char} (h : isDecDigit c = true) :
    48 ≤ c.toNat ∧ c.toNat ≤ 57 := by
  have hc := of_decide_eq_true h
  constructor
  · have h1 := hc.1
    simp [Char.le_def] at h1
    exact h1
  · have h2 := hc.2
    simp [Char.le_def] at h2
    exact h2

theorem toDigit_ten_digit {c : Char} (h : isDecDigit c = true) :
    toDigit 10 c = some (c.toNat - 48) := by
  have hc := of_decide_eq_true h
  have hn := isDecDigit_toNat h
  unfold toDigit
  rw [if_pos hc]
  have hlt : c.toNat - 48 < 10 := by omega
  simp [hlt]

theorem toDigit_ten_eq_none {c : Char} (h : isDecDigit c = false) : toDigit 10 c = none := by
  unfold toDigit
  have hc : ¬ ('0' ≤ c ∧ c ≤ '9') := by
    intro hcc
    have : isDecDigit c = true := decide_eq_true hcc
    rw [h] at this
    cases this
  rw [if_neg hc]
  by_cases h1 : 'a' ≤ c ∧ c ≤ 'z'
  · rw [if_pos h1]
    have : ¬ (c.toNat - 97 + 10 < 10) := by omega
    simp [this]
  · rw [if_neg h1]
    by_cases h2 : 'A' ≤ c ∧ c ≤ 'Z'
    · rw [if_pos h2]
      have : ¬ (c.toNat - 65 + 10 < 10) := by omega
      simp [this]
    · rw [if_neg h2]

theorem digitsValFrom_cons (a : Nat) (c : Char) (cs : Str) :
    digitsValFrom a (c :: cs) = digitsValFrom (a * 10 + (c.toNat - 48)) cs := rfl

theorem digitsValFrom_ge (ds : Str) : ∀ a, a ≤ digitsValFrom a ds := by
  induction ds with
  | nil => intro a; exact Nat.le_refl a
  | cons c cs ih =>
    intro a
    rw [digitsValFrom_cons]
    calc a ≤ a * 10 + (c.toNat - 48) := by omega
    _ ≤ _ := ih _

theorem parseU16Digits_ok (ds : Str) : ∀ a, (∀ c ∈ ds, isDecDigit c = true) →
    digitsValFrom a ds ≤ 65535 → parseU16Digits ds a = .ok (digitsValFrom a ds) := by
  induction ds with
  | nil => intro a _ _; rfl
  | cons c cs ih =>
    intro a hd hv
    have hc : isDecDigit c = true := hd c (List.mem_cons_self c cs)
    rw [digitsValFrom_cons] at hv
    have hle : a * 10 + (c.toNat - 48) ≤ 65535 :=
      le_trans (digitsValFrom_ge cs _) hv
    unfold parseU16Digits
    rw [toDigit_ten_digit hc]
    show (if a * 10 + (c.toNat - 48) > 65535 then Except.error IntErrorKind.posOverflow
      else parseU16Digits cs (a * 10 + (c.toNat - 48))) = Except.ok (digitsValFrom a (c :: cs))
    rw [if_neg (by omega), digitsValFrom_cons]
    exact ih _ (fun x hx => hd x (List.mem_cons_of_mem c hx)) hv

theorem parseU16Digits_le (ds : Str) : ∀ a v, parseU16Digits ds a = .ok v →
    a ≤ 65535 → v ≤ 65535 := by
  induction ds with
  | nil =>
    intro a v h ha
    cases h
    exact ha
  | cons c cs ih =>
    intro a v h ha
    unfold parseU16Digits at h
    cases ht : toDigit 10 c with
    | none => rw [ht] at h; cases h
    | some x =>
      rw [ht] at h
      have h2 : (if a * 10 + x > 65535 then (Except.error IntErrorKind.posOverflow : Except IntErrorKind Nat)
          else parseU16Digits cs (a * 10 + x)) = Except.ok v := h
      by_cases hb : a * 10 + x > 65535
      · rw [if_pos hb] at h2; cases h2
      · rw [if_neg hb] at h2
        exact ih _ _ h2 (by omega)

theorem parseU16_of_digits {ds : Str} (hne : ds ≠ []) (hd : ∀ c ∈ ds, isDecDigit c = true)
    (hv : digitsVal ds ≤ 65535) : parseU16 ds = .ok (digitsVal ds) := by
  cases ds with
  | nil => exact absurd rfl hne
  | cons c cs =>
    have hc : isDecDigit c = true := hd c (List.mem_cons_self c cs)
    have hplus : c ≠ '+' := by
      intro he
      subst he
      exact absurd hc (by decide)
    have hstep : parseU16 (c :: cs) =
        if c = '+' then (if cs = [] then .error .invalidDigit else parseU16Digits cs 0)
        else parseU16Digits (c :: cs) 0 := rfl
    rw [hstep, if_neg hplus]
    exact parseU16Digits_ok _ 0 hd hv

theorem parseU16_le {t : Str} {p : Nat} (h : parseU16 t = .ok p) : p ≤ 65535 := by
  cases t with
  | nil => cases h
  | cons c cs =>
    have h2 : (if c = '+' then (if cs = [] then .error .invalidDigit else parseU16Digits cs 0)
        else parseU16Digits (c :: cs) 0) = Except.ok p := h
    by_cases hc : c = '+'
    · rw [if_pos hc] at h2
      by_cases hcs : cs = []
      · rw [if_pos hcs] at h2; cases h2
      · rw [if_neg hcs] at h2
        exact parseU16Digits_le cs 0 p h2 (by omega)
    · rw [if_neg hc] at h2
      exact parseU16Digits_le (c :: cs) 0 p h2 (by omega)

/-! ## Lemmas: decimal rendering -/

theorem isDecDigit_digitChar {d : Nat} (hd : d < 10) : isDecDigit (digitChar d) = true := by
  interval_cases d <;> decide

theorem digitChar_toNat {d : Nat} (hd : d < 10) : (digitChar d).toNat = 48 + d := by
  interval_cases d <;> decide

theorem digitChar_ne_zero {d : Nat} (h1 : d ≠ 0) (h2 : d < 10) : digitChar d ≠ '0' := by
  interval_cases d
  · exact absurd rfl h1
  all_goals decide

theorem natToDecAux_zero (fuel : Nat) (acc : Str) : natToDecAux fuel 0 acc = acc := by
  cases fuel with
  | zero => rfl
  | succ f => rfl

theorem natToDecAux_succ (f n : Nat) (acc : Str) (h : n ≠ 0) :
    natToDecAux (f + 1) n acc = natToDecAux f (n / 10) (digitChar (n % 10) :: acc) := by
  show (if n = 0 then acc else natToDecAux f (n / 10) (digitChar (n % 10) :: acc)) = _
  rw [if_neg h]

theorem natToDecAux_acc (fuel : Nat) :
    ∀ n acc, natToDecAux fuel n acc = natToDecAux fuel n [] ++ acc := by
  induction fuel with
  | zero => intro n acc; rfl
  | succ f ih =>
    intro n acc
    by_cases h : n = 0
    · subst h
      rfl
    · rw [natToDecAux_succ f n acc h, natToDecAux_succ f n [] h]
      rw [ih (n / 10) (digitChar (n % 10) :: acc), ih (n / 10) [digitChar (n % 10)]]
      simp

theorem natToDecAux_mem (fuel : Nat) : ∀ n acc c, c ∈ natToDecAux fuel n acc →
    c ∈ acc ∨ ∃ d, d < 10 ∧ c = digitChar d := by
  induction fuel with
  | zero => intro n acc c hc; exact Or.inl hc
  | succ f ih =>
    intro n acc c hc
    by_cases h : n = 0
    · subst h
      exact Or.inl hc
    · rw [natToDecAux_succ f n acc h] at hc
      rcases ih (n / 10) _ c hc with h1 | h2
      · rcases List.mem_cons.mp h1 with h3 | h4
        · exact Or.inr ⟨n % 10, Nat.mod_lt _ (by omega), h3⟩
        · exact Or.inl h4
      · exact Or.inr h2

theorem natToDec_all_digits (n : Nat) : ∀ c ∈ natToDec n, isDecDigit c = true := by
  intro c hc
  unfold natToDec at hc
  by_cases h : n = 0
  · rw [if_pos h] at hc
    simp at hc
    subst hc
    decide
  · rw [if_neg h] at hc
    rcases natToDecAux_mem n n [] c hc with h1 | ⟨d, hd, he⟩
    · cases h1
    · subst he
      exact isDecDigit_digitChar hd

theorem digitsValFrom_append (a : Nat) (xs ys : Str) :
    digitsValFrom a (xs ++ ys) = digitsValFrom (digitsValFrom a xs) ys := by
  simp [digitsValFrom, List.foldl_append]

theorem digitsVal_natToDecAux : ∀ fuel n, n ≤ fuel →
    digitsValFrom 0 (natToDecAux fuel n []) = n := by
  intro fuel
  induction fuel with
  | zero =>
    intro n hn
    have h0 : n = 0 := by omega
    subst h0
    rfl
  | succ f ih =>
    intro n hn
    by_cases h : n = 0
    · subst h
      rfl
    · rw [natToDecAux_succ f n [] h, natToDecAux_acc f (n / 10) [digitChar (n % 10)],
        digitsValFrom_append, ih (n / 10) (by omega)]
      show digitsValFrom (n / 10 * 10 + ((digitChar (n % 10)).toNat - 48)) [] = n
      rw [digitChar_toNat (Nat.mod_lt _ (by omega))]
      show n / 10 * 10 + (48 + n % 10 - 48) = n
      omega

theorem natToDec_val (n : Nat) : digitsVal (natToDec n) = n := by
  unfold natToDec digitsVal
  by_cases h : n = 0
  · rw [if_pos h]
    subst h
    rfl
  · rw [if_neg h]
    exact digitsVal_natToDecAux n n (Nat.le_refl n)

theorem natToDecAux_ne_nil (fuel n : Nat) (h : n ≠ 0) (hn : n ≤ fuel) :
    natToDecAux fuel n [] ≠ [] := by
  cases fuel with
  | zero => exact absurd hn (by omega)
  | succ f =>
    rw [natToDecAux_succ f n [] h, natToDecAux_acc]
    simp

theorem natToDec_ne_nil (n : Nat) : natToDec n ≠ [] := by
  unfold natToDec
  by_cases h : n = 0
  · rw [if_pos h]
    simp
  · rw [if_neg h]
    exact natToDecAux_ne_nil n n h (Nat.le_refl n)

theorem natToDecAux_head : ∀ fuel n, n ≠ 0 → n ≤ fuel →
    ∀ c cs, natToDecAux fuel n [] = c :: cs → c ≠ '0' := by
  intro fuel
  induction fuel with
  | zero =>
    intro n h hn
    exact absurd hn (by omega)
  | succ f ih =>
    intro n h hn c cs he
    rw [natToDecAux_succ f n [] h, natToDecAux_acc] at he
    by_cases h10 : n / 10 = 0
    · rw [h10, natToDecAux_zero] at he
      simp at he
      obtain ⟨he1, -⟩ := he
      exact he1 ▸ digitChar_ne_zero (by omega) (Nat.mod_lt _ (by omega))
    · cases hnd : natToDecAux f (n / 10) [] with
      | nil => exact absurd hnd (natToDecAux_ne_nil f (n / 10) h10 (by omega))
      | cons c0 cs0 =>
        rw [hnd] at he
        simp at he
        obtain ⟨he1, -⟩ := he
        exact he1 ▸ ih (n / 10) h10 (by omega) c0 cs0 hnd

theorem natToDec_head (n : Nat) (h : n ≠ 0) : ∀ c cs, natToDec n = c :: cs → c ≠ '0' := by
  unfold natToDec
  rw [if_neg h]
  exact natToDecAux_head n n h (Nat.le_refl n)

theorem natToDecAux_length : ∀ k fuel n, n < 10 ^ k → n ≤ fuel →
    (natToDecAux fuel n []).length ≤ k := by
  intro k
  induction k with
  | zero =>
    intro fuel n h hn
    have hp : (10 : Nat) ^ 0 = 1 := by norm_num
    have h0 : n = 0 := by omega
    subst h0
    rw [natToDecAux_zero]
    exact Nat.le_refl 0
  | succ k ih =>
    intro fuel n h hn
    by_cases h0 : n = 0
    · subst h0
      rw [natToDecAux_zero]
      simp
    · cases fuel with
      | zero => exact absurd hn (by omega)
      | succ f =>
        rw [natToDecAux_succ f n [] h0, natToDecAux_acc]
        have hdiv : n / 10 < 10 ^ k := by
          rw [Nat.div_lt_iff_lt_mul (by omega)]
          calc n < 10 ^ (k + 1) := h
          _ = 10 ^ k * 10 := by ring
        have := ih f (n / 10) hdiv (by omega)
        simp only [List.length_append, List.length_cons, List.length_nil]
        omega

theorem natToDec_length {n k : Nat} (hk : 1 ≤ k) (h : n < 10 ^ k) :
    (natToDec n).length ≤ k := by
  unfold natToDec
  by_cases h0 : n = 0
  · rw [if_pos h0]
    simpa using hk
  · rw [if_neg h0]
    exact natToDecAux_length k n n h (Nat.le_refl n)

theorem not_mem_natToDec {x : Char} (hx : isDecDigit x = false) (n : Nat) :
    x ∉ natToDec n := by
  intro hm
  have := natToDec_all_digits n x hm
  rw [hx] at this
  cases this

theorem parseU16_natToDec {p : Nat} (hp : p ≤ 65535) : parseU16 (natToDec p) = .ok p := by
  have h := parseU16_of_digits (natToDec_ne_nil p) (natToDec_all_digits p)
    (by rw [natToDec_val]; exact hp)
  rw [natToDec_val] at h
  exact h

/-! ## Lemmas: `read_number` and the IPv4 reader -/

theorem head_not_digit {x : Char} (hx : toDigit 10 x = none) (s2 : Str) :
    ∀ c, ((x :: s2).head? = some c) → toDigit 10 c = none := by
  intro c h
  rw [show (x :: s2).head? = some x from rfl] at h
  rw [← Option.some.inj h]
  exact hx

theorem head_nil_not_digit : ∀ c, (([] : Str).head? = some c) → toDigit 10 c = none := by
  intro c h
  simp at h

theorem readNumLoop_digits (maxv maxD : Nat) :
    ∀ (ds rest : Str) (res cnt : Nat), (∀ c ∈ ds, isDecDigit c = true) →
    (∀ c, rest.head? = some c → toDigit 10 c = none) →
    digitsValFrom res ds ≤ maxv → cnt + ds.length ≤ maxD →
    readNumLoop 10 maxv maxD (ds ++ rest) res cnt =
      some (digitsValFrom res ds, cnt + ds.length, rest) := by
  intro ds
  induction ds with
  | nil =>
    intro rest res cnt _ hrest _ _
    cases rest with
    | nil => rfl
    | cons c cs =>
      show readNumLoop 10 maxv maxD (c :: cs) res cnt = _
      unfold readNumLoop
      rw [hrest c rfl]
      rfl
  | cons c cs ih =>
    intro rest res cnt hd hrest hv hcnt
    have hc : isDecDigit c = true := hd c (List.mem_cons_self c cs)
    rw [digitsValFrom_cons] at hv
    have hge : res * 10 + (c.toNat - 48) ≤ digitsValFrom (res * 10 + (c.toNat - 48)) cs :=
      digitsValFrom_ge cs _
    simp only [List.length_cons] at hcnt
    show readNumLoop 10 maxv maxD (c :: (cs ++ rest)) res cnt = _
    unfold readNumLoop
    rw [toDigit_ten_digit hc]
    show (if res * 10 + (c.toNat - 48) > maxv then none
      else if cnt + 1 > maxD then none
      else readNumLoop 10 maxv maxD (cs ++ rest) (res * 10 + (c.toNat - 48)) (cnt + 1)) = _
    rw [if_neg (by omega), if_neg (by omega)]
    rw [digitsValFrom_cons, List.length_cons,
      show cnt + (cs.length + 1) = cnt + 1 + cs.length from by omega]
    exact ih rest _ _ (fun x hx => hd x (List.mem_cons_of_mem c hx)) hrest hv (by omega)

theorem readNumLoop_le (radix maxv maxD : Nat) :
    ∀ (s : Str) (res cnt v c2 : Nat) (rest : Str),
    readNumLoop radix maxv maxD s res cnt = some (v, c2, rest) → res ≤ maxv → v ≤ maxv := by
  intro s
  induction s with
  | nil =>
    intro res cnt v c2 rest h hres
    have h2 : (some (res, cnt, ([] : Str)) : Option (Nat × Nat × Str)) = some (v, c2, rest) := h
    injection h2 with h3
    have h4 : res = v := congrArg (fun q => q.1) h3
    exact h4 ▸ hres
  | cons c cs ih =>
    intro res cnt v c2 rest h hres
    unfold readNumLoop at h
    cases ht : toDigit radix c with
    | none =>
      rw [ht] at h
      have h2 : (some (res, cnt, c :: cs) : Option (Nat × Nat × Str)) = some (v, c2, rest) := h
      injection h2 with h3
      have h4 : res = v := congrArg (fun q => q.1) h3
      exact h4 ▸ hres
    | some d =>
      rw [ht] at h
      have h2 : (if res * radix + d > maxv then none
          else if cnt + 1 > maxD then none
          else readNumLoop radix maxv maxD cs (res * radix + d) (cnt + 1)) =
          some (v, c2, rest) := h
      by_cases hb : res * radix + d > maxv
      · rw [if_pos hb] at h2; cases h2
      · rw [if_neg hb] at h2
        by_cases hb2 : cnt + 1 > maxD
        · rw [if_pos hb2] at h2; cases h2
        · rw [if_neg hb2] at h2
          exact ih _ _ _ _ _ h2 (by omega)

theorem readNumber_eq_of_loop (radix maxv maxD : Nat) (azp : Bool) (s rest : Str) (v cnt : Nat)
    (hl : readNumLoop radix maxv maxD s 0 0 = some (v, cnt, rest)) :
    readNumber radix maxv maxD azp s =
      if cnt = 0 then none
      else if azp = false ∧ s.head? = some '0' ∧ cnt > 1 then none
      else some (v, rest) := by
  unfold readNumber
  rw [hl]

theorem readNumber_le (radix maxv maxD : Nat) (azp : Bool) (s rest : Str) (v : Nat)
    (h : readNumber radix maxv maxD azp s = some (v, rest)) : v ≤ maxv := by
  unfold readNumber at h
  cases hl : readNumLoop radix maxv maxD s 0 0 with
  | none =>
    rw [hl] at h
    cases h
  | some p =>
    obtain ⟨res, cnt, r⟩ := p
    rw [hl] at h
    have h2 : (if cnt = 0 then none
        else if azp = false ∧ s.head? = some '0' ∧ cnt > 1 then none
        else some (res, r)) = some (v, rest) := h
    by_cases h0 : cnt = 0
    · rw [if_pos h0] at h2; cases h2
    · rw [if_neg h0] at h2
      by_cases h1 : azp = false ∧ s.head? = some '0' ∧ cnt > 1
      · rw [if_pos h1] at h2; cases h2
      · rw [if_neg h1] at h2
        injection h2 with h3
        have h4 : res = v := congrArg (fun q => q.1) h3
        exact h4 ▸ readNumLoop_le radix maxv maxD s 0 0 res cnt r hl (Nat.zero_le maxv)

theorem readNumber_natToDec (maxv maxD a : Nat) (rest : Str)
    (ha : a ≤ maxv) (hlen : (natToDec a).length ≤ maxD)
    (hrest : ∀ c, rest.head? = some c → toDigit 10 c = none) :
    readNumber 10 maxv maxD false (natToDec a ++ rest) = some (a, rest) := by
  have hloop := readNumLoop_digits maxv maxD (natToDec a) rest 0 0
    (natToDec_all_digits a) hrest
    (by rw [show digitsValFrom 0 (natToDec a) = a from natToDec_val a]; exact ha)
    (by omega)
  rw [show digitsValFrom 0 (natToDec a) = a from natToDec_val a] at hloop
  rw [readNumber_eq_of_loop 10 maxv maxD false (natToDec a ++ rest) rest a
    (0 + (natToDec a).length) hloop]
  cases hn : natToDec a with
  | nil => exact absurd hn (natToDec_ne_nil a)
  | cons c0 cs0 =>
    rw [if_neg (by simp)]
    by_cases ha0 : a = 0
    · have h5 : ('0' : Char) :: [] = c0 :: cs0 := by
        rw [← hn, ha0]
        rfl
      injection h5 with hA hB
      rw [if_neg (by
        rintro ⟨-, -, h3⟩
        rw [← hB] at h3
        simp at h3)]
    · have hc0 : c0 ≠ '0' := natToDec_head a ha0 c0 cs0 hn
      rw [if_neg (by
        rintro ⟨-, hh, -⟩
        simp at hh
        exact hc0 hh)]

theorem natToDec_len3 {a : Nat} (ha : a ≤ 255) : (natToDec a).length ≤ 3 := by
  have h3 : (10 : Nat) ^ 3 = 1000 := by norm_num
  exact natToDec_length (by omega) (by omega)

theorem readIpv4_render (a b c d : Nat) (h0 : a ≤ 255) (h1 : b ≤ 255)
    (h2 : c ≤ 255) (h3 : d ≤ 255) :
    readIpv4 (ipv4ToString ⟨a, b, c, d⟩) = some (⟨a, b, c, d⟩, []) := by
  have e0 : readNumber 10 255 3 false
      (natToDec a ++ '.' :: (natToDec b ++ '.' :: (natToDec c ++ '.' :: natToDec d))) =
      some (a, '.' :: (natToDec b ++ '.' :: (natToDec c ++ '.' :: natToDec d))) :=
    readNumber_natToDec 255 3 a _ h0 (natToDec_len3 h0) (head_not_digit (by decide) _)
  have e1 : readNumber 10 255 3 false
      (natToDec b ++ '.' :: (natToDec c ++ '.' :: natToDec d)) =
      some (b, '.' :: (natToDec c ++ '.' :: natToDec d)) :=
    readNumber_natToDec 255 3 b _ h1 (natToDec_len3 h1) (head_not_digit (by decide) _)
  have e2 : readNumber 10 255 3 false (natToDec c ++ '.' :: natToDec d) =
      some (c, '.' :: natToDec d) :=
    readNumber_natToDec 255 3 c _ h2 (natToDec_len3 h2) (head_not_digit (by decide) _)
  have e3 : readNumber 10 255 3 false (natToDec d) = some (d, []) := by
    have := readNumber_natToDec 255 3 d [] h3 (natToDec_len3 h3) head_nil_not_digit
    rwa [List.append_nil] at this
  simp only [readIpv4, ipv4ToString, e0, e1, e2, e3]

theorem parseIpAddr_render_v4 (a b c d : Nat) (h0 : a ≤ 255) (h1 : b ≤ 255)
    (h2 : c ≤ 255) (h3 : d ≤ 255) :
    parseIpAddr (ipv4ToString ⟨a, b, c, d⟩) = some (.v4 ⟨a, b, c, d⟩) := by
  simp only [parseIpAddr, readIpAddr, readIpv4_render a b c d h0 h1 h2 h3]

/-! ## Lemmas: inversion of the parsers -/

theorem readIpv4_le (s : Str) (x : Ipv4Addr) (rest : Str) (h : readIpv4 s = some (x, rest)) :
    x.o0 ≤ 255 ∧ x.o1 ≤ 255 ∧ x.o2 ≤ 255 ∧ x.o3 ≤ 255 := by
  unfold readIpv4 at h
  split at h
  · cases h
  · rename_i a s1 e0
    split at h
    · rename_i s2
      split at h
      · cases h
      · rename_i b s3 e1
        split at h
        · rename_i s4
          split at h
          · cases h
          · rename_i c s5 e2
            split at h
            · rename_i s6
              split at h
              · cases h
              · rename_i d s7 e3
                have h2 : Ipv4Addr.mk a b c d = x ∧ s7 = rest := by
                  simpa using h
                obtain ⟨hx, -⟩ := h2
                subst hx
                exact ⟨readNumber_le 10 255 3 false s _ a e0,
                  readNumber_le 10 255 3 false s2 _ b e1,
                  readNumber_le 10 255 3 false s4 _ c e2,
                  readNumber_le 10 255 3 false s6 _ d e3⟩
            · cases h
        · cases h
    · cases h

theorem parseIpAddr_v4_inv (s : Str) (x : Ipv4Addr) (h : parseIpAddr s = some (.v4 x)) :
    readIpv4 s = some (x, []) := by
  unfold parseIpAddr readIpAddr at h
  cases e4 : readIpv4 s with
  | some p =>
    obtain ⟨y, rest⟩ := p
    rw [e4] at h
    cases rest with
    | nil =>
      have h2 : (some (IpAddr.v4 y) : Option IpAddr) = some (.v4 x) := h
      have h3 : y = x := by simpa using h2
      rw [← h3]
    | cons c cs =>
      have h2 : (none : Option IpAddr) = some (IpAddr.v4 x) := h
      cases h2
  | none =>
    rw [e4] at h
    cases e6 : readIpv6 s with
    | some p =>
      obtain ⟨g, rest⟩ := p
      rw [e6] at h
      cases rest with
      | nil =>
        have h2 : (some (IpAddr.v6 g) : Option IpAddr) = some (.v4 x) := h
        simp at h2
      | cons c cs =>
        have h2 : (none : Option IpAddr) = some (IpAddr.v4 x) := h
        cases h2
    | none =>
      rw [e6] at h
      have h2 : (none : Option IpAddr) = some (IpAddr.v4 x) := h
      cases h2

/-! ## Lemmas: Host construction and pair parsing -/

theorem Host_fromStr_ip (s : Str) (ip : IpAddr) (h : parseIpAddr s = some ip) :
    Host.fromStr s = .ipAddr ip := by
  simp only [Host.fromStr, h]

theorem Host_fromStr_dns (s : Str) (h : parseIpAddr s = none) :
    Host.fromStr s = .dnsName s := by
  simp only [Host.fromStr, h]

theorem tryFromStr_noPort_of (s : Str) (hs : rsplitOnceColon s = none) :
    tryFromStr s = .error .noPort := by
  simp only [tryFromStr, hs]

theorem tryFromStr_ok_of (s hd tl : Str) (p : Nat) (hs : rsplitOnceColon s = some (hd, tl))
    (hp : parseU16 tl = .ok p) : tryFromStr s = .ok ⟨Host.fromStr hd, p⟩ := by
  simp only [tryFromStr, hs, hp]

theorem tryFromStr_parsePort_of (s hd tl : Str) (e : IntErrorKind)
    (hs : rsplitOnceColon s = some (hd, tl)) (hp : parseU16 tl = .error e) :
    tryFromStr s = .error (.parsePort e) := by
  simp only [tryFromStr, hs, hp]

theorem tryFromStr_ok_inv (s : Str) (v : HostPortPair) (h : tryFromStr s = .ok v) :
    ∃ hd tl, rsplitOnceColon s = some (hd, tl) ∧ parseU16 tl = .ok v.port ∧
      v.host = Host.fromStr hd := by
  unfold tryFromStr at h
  cases hs : rsplitOnceColon s with
  | none =>
    rw [hs] at h
    have h2 : (Except.error HostPortPairError.noPort :
      Except HostPortPairError HostPortPair) = .ok v := h
    cases h2
  | some p =>
    obtain ⟨hd, tl⟩ := p
    rw [hs] at h
    have h4 : (match parseU16 tl with
      | Except.error e => (Except.error (HostPortPairError.parsePort e) :
          Except HostPortPairError HostPortPair)
      | Except.ok port => Except.ok ⟨Host.fromStr hd, port⟩) = Except.ok v := h
    cases hp : parseU16 tl with
    | error e =>
      rw [hp] at h4
      have h2 : (Except.error (HostPortPairError.parsePort e) :
        Except HostPortPairError HostPortPair) = .ok v := h4
      cases h2
    | ok p =>
      rw [hp] at h4
      have h2 : (Except.ok (HostPortPair.mk (Host.fromStr hd) p) :
        Except HostPortPairError HostPortPair) = .ok v := h4
      have h3 : HostPortPair.mk (Host.fromStr hd) p = v := by simpa using h2
      refine ⟨hd, tl, rfl, ?_, ?_⟩
      · rw [← h3]
        exact hp
      · rw [← h3]

/-! ## Lemmas: character sets of the renderings -/

theorem mem_ipv4ToString (x : Ipv4Addr) :
    ∀ c ∈ ipv4ToString x, isDecDigit c = true ∨ c = '.' := by
  intro c hc
  unfold ipv4ToString at hc
  have hd0 := natToDec_all_digits x.o0
  have hd1 := natToDec_all_digits x.o1
  have hd2 := natToDec_all_digits x.o2
  have hd3 := natToDec_all_digits x.o3
  simp only [List.mem_append, List.mem_cons] at hc
  rcases hc with h | h
  · exact Or.inl (hd0 c h)
  · rcases h with h | h
    · exact Or.inr h
    · rcases h with h | h
      · exact Or.inl (hd1 c h)
      · rcases h with h | h
        · exact Or.inr h
        · rcases h with h | h
          · exact Or.inl (hd2 c h)
          · rcases h with h | h
            · exact Or.inr h
            · exact Or.inl (hd3 c h)

theorem natToDec_no_colon (n : Nat) : ':' ∉ natToDec n :=
  not_mem_natToDec (by decide) n

theorem ipv4ToString_no_colon (x : Ipv4Addr) : ':' ∉ ipv4ToString x := by
  intro hm
  rcases mem_ipv4ToString x ':' hm with h | h
  · exact absurd h (by decide)
  · exact absurd h (by decide)

theorem allowed_no_colon {d : Str} (hall : ∀ c ∈ d, allowedDomainChar c = true) : ':' ∉ d := by
  intro hm
  have := hall ':' hm
  exact absurd this (by decide)

theorem hexDigitChar_ne_bracket {d : Nat} (hd : d < 16) : hexDigitChar d ≠ '[' := by
  interval_cases d <;> decide

theorem natToHexAux_succ (f n : Nat) (acc : Str) (h : n ≠ 0) :
    natToHexAux (f + 1) n acc = natToHexAux f (n / 16) (hexDigitChar (n % 16) :: acc) := by
  show (if n = 0 then acc else natToHexAux f (n / 16) (hexDigitChar (n % 16) :: acc)) = _
  rw [if_neg h]

theorem natToHexAux_mem (fuel : Nat) : ∀ n acc c, c ∈ natToHexAux fuel n acc →
    c ∈ acc ∨ ∃ d, d < 16 ∧ c = hexDigitChar d := by
  induction fuel with
  | zero => intro n acc c hc; exact Or.inl hc
  | succ f ih =>
    intro n acc c hc
    by_cases h : n = 0
    · subst h
      exact Or.inl hc
    · rw [natToHexAux_succ f n acc h] at hc
      rcases ih (n / 16) _ c hc with h1 | h2
      · rcases List.mem_cons.mp h1 with h3 | h4
        · exact Or.inr ⟨n % 16, Nat.mod_lt _ (by omega), h3⟩
        · exact Or.inl h4
      · exact Or.inr h2

theorem natToHex_no_bracket (n : Nat) : '[' ∉ natToHex n := by
  intro hm
  unfold natToHex at hm
  by_cases h : n = 0
  · rw [if_pos h] at hm
    exact absurd hm (by decide)
  · rw [if_neg h] at hm
    rcases natToHexAux_mem n n [] '[' hm with h1 | ⟨d, hd, he⟩
    · cases h1
    · exact hexDigitChar_ne_bracket hd he.symm

theorem fmtSubslice_no_bracket (gs : List Nat) : '[' ∉ fmtSubslice gs := by
  induction gs with
  | nil => simp [fmtSubslice]
  | cons g gs2 ih =>
    cases gs2 with
    | nil =>
      show '[' ∉ natToHex g
      exact natToHex_no_bracket g
    | cons g2 rest =>
      show '[' ∉ natToHex g ++ ':' :: fmtSubslice (g2 :: rest)
      intro hm
      rcases List.mem_append.mp hm with h1 | h2
      · exact natToHex_no_bracket g h1
      · rcases List.mem_cons.mp h2 with h3 | h4
        · exact absurd h3 (by decide)
        · exact ih h4

theorem ipv6ToString_no_bracket (gs : List Nat) : '[' ∉ ipv6ToString gs := by
  unfold ipv6ToString
  by_cases h1 : gs = [0, 0, 0, 0, 0, 0, 0, 0]
  · rw [if_pos h1]
    decide
  · rw [if_neg h1]
    by_cases h2 : gs = [0, 0, 0, 0, 0, 0, 0, 1]
    · rw [if_pos h2]
      decide
    · rw [if_neg h2]
      split
      · intro hm
        rcases List.mem_append.mp hm with h3 | h4
        · exact absurd h3 (by decide)
        · rcases mem_ipv4ToString _ '[' h4 with h5 | h5
          · exact absurd h5 (by decide)
          · exact absurd h5 (by decide)
      · rcases hz : zeroRun gs with ⟨zs, zl⟩
        show '[' ∉ (if zl > 1 then
          fmtSubslice (gs.take zs) ++ ':' :: ':' :: fmtSubslice (gs.drop (zs + zl))
          else fmtSubslice gs)
        by_cases hl : zl > 1
        · rw [if_pos hl]
          intro hm
          rcases List.mem_append.mp hm with h3 | h4
          · exact fmtSubslice_no_bracket _ h3
          · rcases List.mem_cons.mp h4 with h5 | h6
            · exact absurd h5 (by decide)
            · rcases List.mem_cons.mp h6 with h7 | h8
              · exact absurd h7 (by decide)
              · exact fmtSubslice_no_bracket _ h8
        · rw [if_neg hl]
          exact fmtSubslice_no_bracket gs

/-! ## The claims -/

/-- C1, counterexample: `"127.0.0.1"` is composed only of allowed domain
characters and `"80"` denotes an in-range port, yet parsing
`"127.0.0.1:80"` yields the `IpAddr` variant, not the `DnsName` variant
equal to the host segment. -/
theorem c1_counterexample :
    (("127.0.0.1").data.all allowedDomainChar) = true ∧
    tryFromStr ("127.0.0.1:80").data =
      .ok ⟨Host.ipAddr (IpAddr.v4 ⟨127, 0, 0, 1⟩), 80⟩ ∧
    (tryFromStr ("127.0.0.1:80").data).map (fun v => v.host.is_dns_name) = .ok false :=
  ⟨by decide, by decide, by decide⟩

/-- C1 (amended): for every string `d` composed only of characters from the
set `[0-9 a-z A-Z - . _]` that does not itself parse as an IP address, and
every nonempty decimal digit string `ps` denoting an integer in `[0, 65535]`,
parsing `"d:ps"` succeeds and yields the `DnsName` variant equal to `d` with
the denoted port. -/
theorem c1_name_port_parse (d ps : Str) (hall : ∀ c ∈ d, allowedDomainChar c = true)
    (hip : parseIpAddr d = none) (hne : ps ≠ []) (hdig : ∀ c ∈ ps, isDecDigit c = true)
    (hval : digitsVal ps ≤ 65535) :
    tryFromStr (d ++ ':' :: ps) = .ok ⟨Host.dnsName d, digitsVal ps⟩ := by
  have hnc : ':' ∉ ps := by
    intro hm
    exact absurd (hdig ':' hm) (by decide)
  rw [tryFromStr_ok_of _ _ _ (digitsVal ps) (rsplitOnceColon_append d ps hnc)
    (parseU16_of_digits hne hdig hval)]
  rw [Host_fromStr_dns d hip]

theorem c1_name_port_parse_witness :
    parseIpAddr ("example.com").data = none ∧
    tryFromStr (("example.com").data ++ ':' :: ("80").data) =
      .ok ⟨Host.dnsName ("example.com").data, digitsVal ("80").data⟩ :=
  ⟨by decide, c1_name_port_parse ("example.com").data ("80").data
    (by decide) (by decide) (by decide) (by decide) (by decide)⟩

/-- C2: a string that parses as an IP address always becomes the `IpAddr`
variant of `Host`, never `DnsName`; in particular parsing a rendered IPv4
literal `"a.b.c.d:p"` with in-range octets and port yields the
address-variant pair. -/
theorem c2_ip_literal_priority :
    (∀ (s : Str) (ip : IpAddr), parseIpAddr s = some ip → Host.fromStr s = .ipAddr ip) ∧
    (∀ a b c d p : Nat, a ≤ 255 → b ≤ 255 → c ≤ 255 → d ≤ 255 → p ≤ 65535 →
      tryFromStr (ipv4ToString ⟨a, b, c, d⟩ ++ ':' :: natToDec p) =
        .ok ⟨Host.ipAddr (IpAddr.v4 ⟨a, b, c, d⟩), p⟩) := by
  constructor
  · intro s ip h
    exact Host_fromStr_ip s ip h
  · intro a b c d p h0 h1 h2 h3 hp
    rw [tryFromStr_ok_of _ _ _ p
      (rsplitOnceColon_append (ipv4ToString ⟨a, b, c, d⟩) (natToDec p)
        (natToDec_no_colon p))
      (parseU16_natToDec hp)]
    rw [Host_fromStr_ip _ _ (parseIpAddr_render_v4 a b c d h0 h1 h2 h3)]

theorem c2_ip_literal_priority_witness :
    Host.fromStr ("1.2.3.4").data = .ipAddr (IpAddr.v4 ⟨1, 2, 3, 4⟩) ∧
    tryFromStr ("1.2.3.4:80").data = .ok ⟨Host.ipAddr (IpAddr.v4 ⟨1, 2, 3, 4⟩), 80⟩ := by
  constructor
  · exact c2_ip_literal_priority.1 ("1.2.3.4").data (IpAddr.v4 ⟨1, 2, 3, 4⟩) (by decide)
  · have h2 := c2_ip_literal_priority.2 1 2 3 4 80
      (by decide) (by decide) (by decide) (by decide) (by decide)
    have he : ipv4ToString ⟨1, 2, 3, 4⟩ ++ ':' :: natToDec 80 = ("1.2.3.4:80").data := by
      decide
    rw [← he]
    exact h2

/-- C3, counterexample: `"a:b:80"` has a colon inside its host segment
(`"a:b"`), yet parsing is not rejected: it produces the pair
`(DnsName "a:b", 80)`. -/
theorem c3_counterexample :
    tryFromStr ("a:b:80").data = .ok ⟨Host.dnsName ("a:b").data, 80⟩ := by
  decide

/-- C3 (amended): an input whose host segment (the part before the last
colon) contains a colon is not rejected: whenever the port segment parses as
a `u16`, the pair is produced, the host segment becoming the `IpAddr`
variant if it parses as an IP literal and the `DnsName` variant (colons kept
verbatim) otherwise — the code performs no domain character validation. -/
theorem c3_colon_host_not_rejected (hd tl : Str) (p : Nat) (hcol : ':' ∈ hd)
    (hnc : ':' ∉ tl) (hp : parseU16 tl = .ok p) :
    tryFromStr (hd ++ ':' :: tl) = .ok ⟨Host.fromStr hd, p⟩ :=
  tryFromStr_ok_of _ hd tl p (rsplitOnceColon_append hd tl hnc) hp

theorem c3_colon_host_not_rejected_witness :
    (':' ∈ ("a:b").data) ∧
    tryFromStr (("a:b").data ++ ':' :: ("80").data) =
      .ok ⟨Host.fromStr ("a:b").data, 80⟩ :=
  ⟨by decide, c3_colon_host_not_rejected ("a:b").data ("80").data 80
    (by decide) (by decide) (by decide)⟩

/-- C4, counterexample: parsing `"exa mple.com:80"` does not fail at all
(there is no `InvalidCharacterInDomain` error in the code): it succeeds. -/
theorem c4_counterexample :
    (tryFromStr ("exa mple.com:80").data).isOk = true := by
  decide

/-- C4 (amended): parsing `"exa mple.com:80"` succeeds, yielding the
`DnsName` variant holding `"exa mple.com"` verbatim (space included) and
port 80; the error type has no `InvalidCharacterInDomain` variant and no
domain-character validation is performed. -/
theorem c4_space_in_domain_accepted :
    tryFromStr ("exa mple.com:80").data =
      .ok ⟨Host.dnsName ("exa mple.com").data, 80⟩ := by
  decide

/-- C5, counterexample: parsing `"[::1]:8080"` does not yield an
address-variant pair. -/
theorem c5_counterexample :
    (tryFromStr ("[::1]:8080").data).map (fun v => v.host.is_ip_address) =
      .ok false := by
  decide

/-- C5 (amended): parsing `"[::1]:8080"` succeeds with port 8080 but yields
the `DnsName` variant holding `"[::1]"`: there is no whole-string socket
address path, and the bracketed form is not accepted by the IP address
parser. -/
theorem c5_bracketed_ipv6_is_name :
    tryFromStr ("[::1]:8080").data = .ok ⟨Host.dnsName ("[::1]").data, 8080⟩ ∧
    parseIpAddr ("[::1]").data = none :=
  ⟨by decide, by decide⟩

/-- C6: parsing fails with `NoPort` exactly when the input contains no
colon. -/
theorem c6_noPort_iff (s : Str) : tryFromStr s = .error .noPort ↔ ':' ∉ s := by
  constructor
  · intro h
    by_contra hmem
    cases hs : rsplitOnceColon s with
    | none => exact absurd hmem ((rsplitOnceColon_eq_none_iff s).mp hs)
    | some p =>
      obtain ⟨hd, tl⟩ := p
      cases hp : parseU16 tl with
      | error e =>
        rw [tryFromStr_parsePort_of s hd tl e hs hp] at h
        simp at h
      | ok p2 =>
        rw [tryFromStr_ok_of s hd tl p2 hs hp] at h
        simp at h
  · intro hmem
    exact tryFromStr_noPort_of s ((rsplitOnceColon_eq_none_iff s).mpr hmem)

theorem c6_noPort_iff_witness :
    tryFromStr ("example.com").data = .error .noPort :=
  (c6_noPort_iff ("example.com").data).mpr (by decide)

/-- C7, counterexample: a port segment with a leading `+` is accepted by
Rust's `u16` parser, so `"example.com:+80"` parses successfully with port
80 instead of failing with `ParsePort`. -/
theorem c7_counterexample :
    tryFromStr ("example.com:+80").data =
      .ok ⟨Host.dnsName ("example.com").data, 80⟩ := by
  decide

/-- C7 (amended): whenever the segment after the last colon fails `u16`
parsing (empty segment, non-digit bytes such as whitespace, or a value
above 65535 — a leading `+` followed by digits is accepted), parsing fails
with `ParsePort` wrapping the underlying error kind unchanged; in
particular `"example.com:999999"` fails with `ParsePort(PosOverflow)`. -/
theorem c7_parse_port_error :
    (∀ (s hd tl : Str) (e : IntErrorKind), rsplitOnceColon s = some (hd, tl) →
      parseU16 tl = .error e → tryFromStr s = .error (.parsePort e)) ∧
    tryFromStr ("example.com:999999").data = .error (.parsePort .posOverflow) := by
  constructor
  · intro s hd tl e hs hp
    exact tryFromStr_parsePort_of s hd tl e hs hp
  · decide

theorem c7_parse_port_error_witness :
    rsplitOnceColon ("a: 80").data = some (("a").data, (" 80").data) ∧
    tryFromStr ("a: 80").data = .error (.parsePort .invalidDigit) :=
  ⟨by decide, c7_parse_port_error.1 ("a: 80").data ("a").data (" 80").data
    .invalidDigit (by decide) (by decide)⟩

/-- C8: the pair's `Display` renders exactly the host's textual form, one
colon, then the port in decimal; the pair's own formatter adds no brackets
around IPv6 addresses (the rendered IPv6 host never contains `[`). -/
theorem c8_display_format :
    (∀ pr : HostPortPair,
      pairToString pr = hostToString pr.host ++ ':' :: natToDec pr.port) ∧
    ∀ g, '[' ∉ hostToString (Host.ipAddr (IpAddr.v6 g)) :=
  ⟨fun _ => rfl, fun g => ipv6ToString_no_bracket g⟩

theorem c8_display_format_witness :
    pairToString ⟨Host.ipAddr (IpAddr.v6 [0, 0, 0, 0, 0, 0, 0, 1]), 8080⟩ =
      hostToString (Host.ipAddr (IpAddr.v6 [0, 0, 0, 0, 0, 0, 0, 1])) ++
        ':' :: natToDec 8080 ∧
    '[' ∉ hostToString (Host.ipAddr (IpAddr.v6 [0, 0, 0, 0, 0, 0, 0, 1])) :=
  ⟨c8_display_format.1 ⟨Host.ipAddr (IpAddr.v6 [0, 0, 0, 0, 0, 0, 0, 1]), 8080⟩,
    c8_display_format.2 [0, 0, 0, 0, 0, 0, 0, 1]⟩

/-- C9: every successfully parsed pair whose host is not an IPv6 address
round-trips: formatting it and re-parsing the result yields an equal
value (the claim's carve-out for IPv6 hosts is kept as a hypothesis). -/
theorem c9_parse_display_roundtrip (s : Str) (v : HostPortPair)
    (h : tryFromStr s = .ok v) (h6 : ∀ g, v.host ≠ Host.ipAddr (IpAddr.v6 g)) :
    tryFromStr (pairToString v) = .ok v := by
  obtain ⟨hd, tl, hs, hp, hh⟩ := tryFromStr_ok_inv s v h
  have hple : v.port ≤ 65535 := parseU16_le hp
  cases hip : parseIpAddr hd with
  | none =>
    have hhost : v.host = Host.dnsName hd := by
      rw [hh]
      exact Host_fromStr_dns hd hip
    have hps : pairToString v = hd ++ ':' :: natToDec v.port := by
      unfold pairToString
      rw [hhost]
      rfl
    rw [hps]
    rw [tryFromStr_ok_of _ hd (natToDec v.port) v.port
      (rsplitOnceColon_append hd (natToDec v.port) (natToDec_no_colon v.port))
      (parseU16_natToDec hple)]
    rw [Host_fromStr_dns hd hip, ← hhost]
  | some ip =>
    cases ip with
    | v6 g =>
      exact absurd (by rw [hh]; exact Host_fromStr_ip hd _ hip) (h6 g)
    | v4 x =>
      have hhost : v.host = Host.ipAddr (IpAddr.v4 x) := by
        rw [hh]
        exact Host_fromStr_ip hd _ hip
      have hinv := parseIpAddr_v4_inv hd x hip
      obtain ⟨hb0, hb1, hb2, hb3⟩ := readIpv4_le hd x [] hinv
      obtain ⟨a, b, c, d⟩ := x
      have hps : pairToString v = ipv4ToString ⟨a, b, c, d⟩ ++ ':' :: natToDec v.port := by
        unfold pairToString
        rw [hhost]
        rfl
      rw [hps]
      rw [tryFromStr_ok_of _ _ _ v.port
        (rsplitOnceColon_append (ipv4ToString ⟨a, b, c, d⟩) (natToDec v.port)
          (natToDec_no_colon v.port))
        (parseU16_natToDec hple)]
      rw [Host_fromStr_ip _ _ (parseIpAddr_render_v4 a b c d hb0 hb1 hb2 hb3)]
      rw [← hhost]

theorem c9_parse_display_roundtrip_witness :
    tryFromStr ("a:80").data = .ok ⟨Host.dnsName ("a").data, 80⟩ ∧
    tryFromStr (pairToString ⟨Host.dnsName ("a").data, 80⟩) =
      .ok ⟨Host.dnsName ("a").data, 80⟩ :=
  ⟨by decide, c9_parse_display_roundtrip ("a:80").data ⟨Host.dnsName ("a").data, 80⟩
    (by decide) (fun g hg => Host.noConfusion hg)⟩

/-- C10: all four fallible parse entry points (`TryFrom<String>`,
`TryFrom<&String>`, `TryFrom<&str>`, `FromStr`) agree on every input:
equal success values and equal errors. -/
theorem c10_entry_points_agree (s : Str) :
    tryFromString s = tryFromStr s ∧ tryFromRefString s = tryFromStr s ∧
    fromStr s = tryFromStr s := by
  refine ⟨?_, rfl, rfl⟩
  unfold tryFromString tryFromStr
  cases hs : rsplitOnceColon s with
  | none => rfl
  | some p =>
    obtain ⟨hd, tl⟩ := p
    have htake : s.take hd.length = hd := by
      rw [(rsplitOnceColon_sound s hd tl hs).1]
      exact List.take_left hd (':' :: tl)
    show (match parseU16 tl with
      | Except.error e => (Except.error (HostPortPairError.parsePort e) :
          Except HostPortPairError HostPortPair)
      | Except.ok port => Except.ok ⟨Host.fromStr (s.take hd.length), port⟩) =
      (match parseU16 tl with
      | Except.error e => Except.error (HostPortPairError.parsePort e)
      | Except.ok port => Except.ok ⟨Host.fromStr hd, port⟩)
    rw [htake]

end HostPortPairLib
